import Mathlib

/-!
Verification of the `intermodal` data-enveloping library.

The library (src/rust/src/lib.rs) defines three data types — `Header`,
`Manifest`, and `Packet<T>` — together with `From` conversions between them,
and derives serde `Serialize`/`Deserialize` for each.  The wire behaviour is
therefore fixed by the serde derive semantics and the field attributes in the
source (`#[serde(default, skip_serializing_if = "HashMap::is_empty")]` on
`Manifest::labels`), delegated to an external structured codec.

This file embeds the data model and its (de)serialization behaviour:
* `Json` is the structured data model of the external codec (objects, arrays,
  strings, integers, booleans, null), the level at which serde operates.
* encoding of a struct produces one object field per declared field, in
  declaration order, with `labels` omitted when empty;
* decoding looks every declared field up by name, ignores unknown fields,
  fails when a required field is missing or ill-typed, and defaults `labels`
  to the empty mapping when absent;
* `DateTime` models the external `chrono::DateTime<chrono::Utc>` timestamp
  (the library's `DateTime` alias) together with its RFC 3339 string codec:
  `YYYY-MM-DDTHH:MM:SS[.fffffffff]` followed by `Z` or `+00:00`.  Fractional
  seconds are modelled at fixed nine-digit (nanosecond) precision, and
  calendar day-of-month validation is elided; neither affects any statement
  proved below.
-/

/-- The structured data model of the external codec (serde's data model, as
realized by e.g. `serde_json::Value`).  Numbers are restricted to integers,
which covers every numeric field of this library (`u64`, `u16`, `u8`). -/
inductive Json where
  | null : Json
  | bool : Bool → Json
  | num : Int → Json
  | str : String → Json
  | arr : List Json → Json
  | obj : List (String × Json) → Json
deriving Repr

/-- Look a field up by name in an object's field list (first match). -/
def lookupField : List (String × Json) → String → Option Json
  | [], _ => none
  | (k, v) :: rest, name => if k = name then some v else lookupField rest name

/-- The field named `name` of a JSON object, if the value is an object and
carries that field. -/
def Json.getField : Json → String → Option Json
  | .obj fs, name => lookupField fs name
  | _, _ => none

/-- Whether the encoded value is an object carrying a field named `name`. -/
def Json.hasField (j : Json) (name : String) : Bool :=
  (j.getField name).isSome

/- ## The timestamp codec (external `chrono` library, spec §6) -/

/-- A UTC timestamp, as carried by the library's `DateTime` alias for
`chrono::DateTime<chrono::Utc>`: a civil UTC date-time with nanosecond
precision.  Two timestamps denote the same instant iff they are equal
field-by-field. -/
structure DateTime where
  year : Nat
  month : Nat
  day : Nat
  hour : Nat
  minute : Nat
  second : Nat
  nanos : Nat
deriving Repr, DecidableEq

/-- The field ranges every value of the external `chrono` timestamp type
satisfies by construction. -/
def DateTime.valid? (d : DateTime) : Bool :=
  d.year ≤ 9999 && 1 ≤ d.month && d.month ≤ 12 && 1 ≤ d.day && d.day ≤ 31 &&
  d.hour ≤ 23 && d.minute ≤ 59 && d.second ≤ 59 && d.nanos < 10 ^ 9

/-- The character of a single decimal digit. -/
def digitChar (n : Nat) : Char := Char.ofNat (48 + n)

/-- The value of a decimal digit character, when it is one. -/
def digitVal (c : Char) : Option Nat :=
  if 48 ≤ c.toNat ∧ c.toNat ≤ 57 then some (c.toNat - 48) else none

/-- Render `n` as exactly `k` decimal digits, most significant first
(zero-padded). -/
def renderFixed : Nat → Nat → List Char
  | 0, _ => []
  | k + 1, n => digitChar (n / 10 ^ k) :: renderFixed k (n % 10 ^ k)

/-- Read exactly `k` decimal digits, accumulating their value onto `acc`. -/
def parseFixedAux : Nat → Nat → List Char → Option (Nat × List Char)
  | 0, acc, cs => some (acc, cs)
  | _ + 1, _, [] => none
  | k + 1, acc, c :: cs =>
    match digitVal c with
    | some d => parseFixedAux k (10 * acc + d) cs
    | none => none

/-- Read exactly `k` decimal digits and return their value. -/
def parseFixed (k : Nat) (cs : List Char) : Option (Nat × List Char) :=
  parseFixedAux k 0 cs

/-- Consume the expected literal character. -/
def expectChar (c : Char) : List Char → Option (List Char)
  | [] => none
  | c' :: cs => if c' = c then some cs else none

/-- The fractional-seconds part of a rendered timestamp: absent when the
nanosecond count is zero, otherwise a point followed by nine digits. -/
def fracRender (n : Nat) : List Char :=
  if n = 0 then [] else '.' :: renderFixed 9 n

/-- Read an optional fractional-seconds part, returning a nanosecond count. -/
def parseFrac (cs : List Char) : Option (Nat × List Char) :=
  match cs with
  | c :: rest => if c = '.' then parseFixed 9 rest else some (0, cs)
  | [] => some (0, [])

/-- Consume a UTC offset designator: `Z`, or the equivalent `+00:00`. -/
def parseOffset (cs : List Char) : Option (List Char) :=
  match cs with
  | c :: rest =>
    if c = 'Z' then some rest
    else if c = '+' then
      match rest with
      | c1 :: c2 :: c3 :: c4 :: c5 :: rest2 =>
        if c1 = '0' ∧ c2 = '0' ∧ c3 = ':' ∧ c4 = '0' ∧ c5 = '0' then
          some rest2
        else none
      | _ => none
    else none
  | [] => none

/-- Render a timestamp in RFC 3339 form `YYYY-MM-DDTHH:MM:SS[.fffffffff]Z`,
the form the external codec produces. -/
def dtRenderL (d : DateTime) : List Char :=
  renderFixed 4 d.year ++ '-' ::
  (renderFixed 2 d.month ++ '-' ::
  (renderFixed 2 d.day ++ 'T' ::
  (renderFixed 2 d.hour ++ ':' ::
  (renderFixed 2 d.minute ++ ':' ::
  (renderFixed 2 d.second ++
  (fracRender d.nanos ++ 'Z' :: ([] : List Char)))))))

/-- Parse an RFC 3339 UTC timestamp, rejecting out-of-range components and
trailing input. -/
def dtParseL (cs0 : List Char) : Option DateTime :=
  match parseFixed 4 cs0 with
  | none => none
  | some (y, cs) =>
  match expectChar '-' cs with
  | none => none
  | some cs =>
  match parseFixed 2 cs with
  | none => none
  | some (mo, cs) =>
  match expectChar '-' cs with
  | none => none
  | some cs =>
  match parseFixed 2 cs with
  | none => none
  | some (da, cs) =>
  match expectChar 'T' cs with
  | none => none
  | some cs =>
  match parseFixed 2 cs with
  | none => none
  | some (h, cs) =>
  match expectChar ':' cs with
  | none => none
  | some cs =>
  match parseFixed 2 cs with
  | none => none
  | some (mi, cs) =>
  match expectChar ':' cs with
  | none => none
  | some cs =>
  match parseFixed 2 cs with
  | none => none
  | some (s, cs) =>
  match parseFrac cs with
  | none => none
  | some (na, cs) =>
  match parseOffset cs with
  | none => none
  | some [] =>
    if (⟨y, mo, da, h, mi, s, na⟩ : DateTime).valid? then
      some ⟨y, mo, da, h, mi, s, na⟩
    else none
  | some _ => none

theorem digitVal_digitChar : ∀ d : Nat, d < 10 → digitVal (digitChar d) = some d := by
  decide

theorem parseFixedAux_renderFixed (k : Nat) :
    ∀ (acc n : Nat) (rest : List Char), n < 10 ^ k →
      parseFixedAux k acc (renderFixed k n ++ rest) = some (acc * 10 ^ k + n, rest) := by
  induction k with
  | zero =>
    intro acc n rest h
    have hn : n = 0 := by omega
    subst hn
    simp [renderFixed, parseFixedAux]
  | succ k ih =>
    intro acc n rest h
    have hd : n / 10 ^ k < 10 := by
      rw [Nat.div_lt_iff_lt_mul (Nat.pos_pow_of_pos k (by norm_num))]
      calc n < 10 ^ (k + 1) := h
        _ = 10 * 10 ^ k := by ring
        _ ≤ 10 * 10 ^ k := le_refl _
    have hm : n % 10 ^ k < 10 ^ k := Nat.mod_lt _ (Nat.pos_pow_of_pos k (by norm_num))
    have hsplit := Nat.div_add_mod n (10 ^ k)
    simp only [renderFixed, List.cons_append, parseFixedAux, digitVal_digitChar _ hd,
      List.append_eq]
    rw [ih (10 * acc + n / 10 ^ k) (n % 10 ^ k) rest hm]
    congr 2
    rw [pow_succ]
    calc (10 * acc + n / 10 ^ k) * 10 ^ k + n % 10 ^ k
        = acc * (10 ^ k * 10) + (10 ^ k * (n / 10 ^ k) + n % 10 ^ k) := by ring
      _ = acc * (10 ^ k * 10) + n := by rw [hsplit]

theorem parseFixed_renderFixed (k n : Nat) (rest : List Char) (h : n < 10 ^ k) :
    parseFixed k (renderFixed k n ++ rest) = some (n, rest) := by
  have := parseFixedAux_renderFixed k 0 n rest h
  simpa [parseFixed] using this

theorem expectChar_cons (c : Char) (rest : List Char) :
    expectChar c (c :: rest) = some rest := by
  simp [expectChar]

theorem parseFrac_fracRender (n : Nat) (rest : List Char) (h : n < 10 ^ 9) :
    parseFrac (fracRender n ++ 'Z' :: rest) = some (n, 'Z' :: rest) := by
  by_cases hn : n = 0
  · subst hn
    simp [fracRender, parseFrac]
  · simp only [fracRender, if_neg hn, List.cons_append, parseFrac]
    rw [if_pos trivial, parseFixed_renderFixed 9 n ('Z' :: rest) h]

theorem parseOffset_Z (rest : List Char) : parseOffset ('Z' :: rest) = some rest := by
  simp [parseOffset]

theorem dtParseL_dtRenderL (d : DateTime) (hv : d.valid? = true) :
    dtParseL (dtRenderL d) = some d := by
  have hb : d.year ≤ 9999 ∧ 1 ≤ d.month ∧ d.month ≤ 12 ∧ 1 ≤ d.day ∧ d.day ≤ 31 ∧
      d.hour ≤ 23 ∧ d.minute ≤ 59 ∧ d.second ≤ 59 ∧ d.nanos < 10 ^ 9 := by
    simpa [DateTime.valid?, Bool.and_eq_true, decide_eq_true_eq, and_assoc] using hv
  obtain ⟨h1, h2, h3, h4, h5, h6, h7, h8, h9⟩ := hb
  rw [dtRenderL, dtParseL.eq_def]
  rw [parseFixed_renderFixed 4 d.year _ (by norm_num; omega)]
  simp only []
  rw [expectChar_cons]
  simp only []
  rw [parseFixed_renderFixed 2 d.month _ (by norm_num; omega)]
  simp only []
  rw [expectChar_cons]
  simp only []
  rw [parseFixed_renderFixed 2 d.day _ (by norm_num; omega)]
  simp only []
  rw [expectChar_cons]
  simp only []
  rw [parseFixed_renderFixed 2 d.hour _ (by norm_num; omega)]
  simp only []
  rw [expectChar_cons]
  simp only []
  rw [parseFixed_renderFixed 2 d.minute _ (by norm_num; omega)]
  simp only []
  rw [expectChar_cons]
  simp only []
  rw [parseFixed_renderFixed 2 d.second _ (by norm_num; omega)]
  simp only []
  rw [parseFrac_fracRender d.nanos _ h9]
  simp only []
  rw [parseOffset_Z]
  simp only []
  show (if DateTime.valid? d then some d else none) = some d
  rw [hv]
  simp

/- ## Primitive field decoders (serde data-model semantics) -/

/-- Decode a JSON string. -/
def decodeString : Json → Except String String
  | .str s => .ok s
  | _ => .error "expected string"

/-- Decode a JSON boolean. -/
def decodeBool : Json → Except String Bool
  | .bool b => .ok b
  | _ => .error "expected bool"

/-- Decode an unsigned `w`-bit integer (`u64`, `u16`, `u8`, ...): the number
must be a non-negative integer below `2 ^ w`. -/
def decodeUInt (w : Nat) : Json → Except String Nat
  | .num n => if 0 ≤ n ∧ n < ((2 ^ w : Nat) : Int) then .ok n.toNat else .error "integer out of range"
  | _ => .error "expected integer"

/-- Decode a JSON array elementwise (serde's `Vec<T>` behaviour). -/
def decodeArr (dec : Json → Except String α) : Json → Except String (List α)
  | .arr xs => xs.mapM dec
  | _ => .error "expected array"

/-- Decode a timestamp: an RFC 3339 string (external `chrono` codec). -/
def decodeDateTime : Json → Except String DateTime
  | .str s =>
    match dtParseL s.data with
    | some d => .ok d
    | none => .error "invalid timestamp"
  | _ => .error "expected timestamp string"

/-- Render a timestamp field value: its RFC 3339 string. -/
def encodeDateTime (d : DateTime) : Json :=
  .str (String.mk (dtRenderL d))

/-- Look the named field up and decode it; a missing field is a decode
error (serde's behaviour for a struct field without a default). -/
def reqField (j : Json) (name : String) (dec : Json → Except String α) :
    Except String α :=
  match j.getField name with
  | some v => dec v
  | none => .error ("missing field " ++ name)

/- ## The data model (src/rust/src/lib.rs) -/

/-- The `labels` mapping: arbitrary key-value string pairs.  Models the
`HashMap<String, String>` of the source as an association list; the codec
lemmas below preserve the entry list exactly, so equality of the lists
refines equality of the hash maps. -/
def Labels : Type := List (String × String)
deriving DecidableEq, Repr

/-- Metadata that describes the content (`struct Manifest`, lib.rs:70-97). -/
structure Manifest where
  domain : String
  scope : String
  kind : String
  version : Nat
  origin : String
  ctime : DateTime
  labels : Labels
deriving DecidableEq, Repr

/-- The invariants the Rust field types enforce by construction: `version`
fits in a `u64` and `ctime` is a real `chrono` timestamp. -/
def Manifest.valid? (m : Manifest) : Bool :=
  m.version < 2 ^ 64 && m.ctime.valid?

/-- An elemental data structure consisting of only a manifest
(`struct Header`, lib.rs:13-16). -/
structure Header where
  manifest : Manifest
deriving DecidableEq, Repr

/-- A complete data structure consisting of a manifest and the content
(`struct Packet<T>`, lib.rs:109-113). -/
structure Packet (T : Type) where
  manifest : Manifest
  content : T

/-- Conversion `impl<T> From<Packet<T>> for Header` (lib.rs:18-24). -/
def Header.fromPacket {T : Type} (data : Packet T) : Header :=
  ⟨data.manifest⟩

/-- Conversion `impl From<Manifest> for Header` (lib.rs:26-30). -/
def Header.fromManifest (manifest : Manifest) : Header :=
  ⟨manifest⟩

/-- Conversion `impl<T> From<Packet<T>> for Manifest` (lib.rs:99-103). -/
def Manifest.fromPacket {T : Type} (data : Packet T) : Manifest :=
  data.manifest

/-- Constructor `Packet::from_obj` (lib.rs:115-123): create a `Packet` from a
`Header` and some content. -/
def Packet.from_obj {T : Type} (obj : Header) (content : T) : Packet T :=
  ⟨obj.manifest, content⟩

/- ## The derived codecs (serde derive semantics) -/

/-- Encode the labels mapping as a JSON object of string values. -/
def encodeLabels (l : Labels) : Json :=
  .obj (l.map fun p => (p.1, .str p.2))

/-- Decode every entry of a labels object; every value must be a string. -/
def decodeLabelEntries : List (String × Json) → Except String Labels
  | [] => .ok []
  | (k, .str v) :: rest =>
    match decodeLabelEntries rest with
    | .ok l => .ok ((k, v) :: l)
    | .error e => .error e
  | _ => .error "expected string label value"

/-- Decode the labels mapping from a JSON object. -/
def decodeLabels : Json → Except String Labels
  | .obj fs => decodeLabelEntries fs
  | _ => .error "expected labels object"

/-- Serialize a `Manifest` (serde derive on lib.rs:70-97): one field per
declared field in declaration order, with `labels` omitted entirely when
empty (`#[serde(default, skip_serializing_if = "HashMap::is_empty")]`). -/
def Manifest.encode (m : Manifest) : Json :=
  .obj (("domain", .str m.domain) :: ("scope", .str m.scope) ::
    ("kind", .str m.kind) :: ("version", .num (m.version : Int)) ::
    ("origin", .str m.origin) :: ("ctime", encodeDateTime m.ctime) ::
    (if List.isEmpty m.labels then [] else [("labels", encodeLabels m.labels)]))

/-- Deserialize a `Manifest` (serde derive): each declared field is looked
up by name and decoded at its declared type; unknown fields are ignored; a
missing `labels` field defaults to the empty mapping; any other missing
field is an error. -/
def Manifest.decode (j : Json) : Except String Manifest :=
  match reqField j "domain" decodeString with
  | .error e => .error e
  | .ok domain =>
  match reqField j "scope" decodeString with
  | .error e => .error e
  | .ok scope =>
  match reqField j "kind" decodeString with
  | .error e => .error e
  | .ok kind =>
  match reqField j "version" (decodeUInt 64) with
  | .error e => .error e
  | .ok version =>
  match reqField j "origin" decodeString with
  | .error e => .error e
  | .ok origin =>
  match reqField j "ctime" decodeDateTime with
  | .error e => .error e
  | .ok ctime =>
  match (match j.getField "labels" with
         | none => (.ok [] : Except String Labels)
         | some v => decodeLabels v) with
  | .error e => .error e
  | .ok labels => .ok ⟨domain, scope, kind, version, origin, ctime, labels⟩

/-- Serialize a `Header` (serde derive on lib.rs:13-16). -/
def Header.encode (h : Header) : Json :=
  .obj [("manifest", h.manifest.encode)]

/-- Deserialize a `Header` (serde derive): only the `manifest` field is
consulted; all other fields of the blob are ignored. -/
def Header.decode (j : Json) : Except String Header :=
  match reqField j "manifest" Manifest.decode with
  | .error e => .error e
  | .ok m => .ok ⟨m⟩

/-- Serialize a `Packet<T>` (serde derive on lib.rs:109-113), given the
payload type's encoder: the `manifest` field followed by the `content`
field. -/
def Packet.encode {T : Type} (encT : T → Json) (p : Packet T) : Json :=
  .obj [("manifest", p.manifest.encode), ("content", encT p.content)]

/-- Deserialize a `Packet<T>` (serde derive), given the payload type's
decoder: both the `manifest` and the `content` field must be present and
decode; unknown fields are ignored. -/
def Packet.decode {T : Type} (decT : Json → Except String T) (j : Json) :
    Except String (Packet T) :=
  match reqField j "manifest" Manifest.decode with
  | .error e => .error e
  | .ok m =>
  match reqField j "content" decT with
  | .error e => .error e
  | .ok c => .ok ⟨m, c⟩

/- ## Codec round-trip lemmas -/

theorem decodeUInt_encode (w n : Nat) (h : n < 2 ^ w) :
    decodeUInt w (.num (n : Int)) = .ok n := by
  rw [decodeUInt]
  rw [if_pos ⟨Int.natCast_nonneg n, by exact_mod_cast h⟩]
  rw [Int.toNat_natCast]

theorem decodeDateTime_encode (d : DateTime) (hv : d.valid? = true) :
    decodeDateTime (encodeDateTime d) = .ok d := by
  rw [encodeDateTime, decodeDateTime]
  show (match dtParseL (dtRenderL d) with
        | some d => Except.ok d
        | none => Except.error "invalid timestamp") = Except.ok d
  rw [dtParseL_dtRenderL d hv]

theorem decodeLabelEntries_encode (l : Labels) :
    decodeLabelEntries (l.map fun p => (p.1, .str p.2)) = .ok l := by
  induction l with
  | nil => rfl
  | cons p rest ih =>
    obtain ⟨k, v⟩ := p
    simp only [List.map_cons, decodeLabelEntries, ih]

theorem decodeLabels_encodeLabels (l : Labels) :
    decodeLabels (encodeLabels l) = .ok l := by
  rw [encodeLabels, decodeLabels, decodeLabelEntries_encode]

theorem Manifest.getField_encode_labels_nil (m : Manifest) (hl : m.labels = []) :
    m.encode.getField "labels" = none := by
  rw [Manifest.encode, hl]
  rfl

theorem Manifest.getField_encode_labels_cons (m : Manifest) (p : String × String)
    (rest : Labels) (hl : m.labels = p :: rest) :
    m.encode.getField "labels" = some (encodeLabels (p :: rest)) := by
  rw [Manifest.encode, hl]
  rfl

theorem Manifest.decode_encode (m : Manifest) (hv : m.valid? = true) :
    Manifest.decode m.encode = .ok m := by
  have hb : m.version < 2 ^ 64 ∧ m.ctime.valid? = true := by
    simpa [Manifest.valid?, Bool.and_eq_true, decide_eq_true_eq] using hv
  obtain ⟨hver, hct⟩ := hb
  have e1 : reqField m.encode "domain" decodeString = .ok m.domain := rfl
  have e2 : reqField m.encode "scope" decodeString = .ok m.scope := rfl
  have e3 : reqField m.encode "kind" decodeString = .ok m.kind := rfl
  have e4 : reqField m.encode "version" (decodeUInt 64) = .ok m.version := by
    show decodeUInt 64 (.num (m.version : Int)) = .ok m.version
    exact decodeUInt_encode 64 m.version hver
  have e5 : reqField m.encode "origin" decodeString = .ok m.origin := rfl
  have e6 : reqField m.encode "ctime" decodeDateTime = .ok m.ctime := by
    show decodeDateTime (encodeDateTime m.ctime) = .ok m.ctime
    exact decodeDateTime_encode m.ctime hct
  have e7 : (match m.encode.getField "labels" with
             | none => (.ok [] : Except String Labels)
             | some v => decodeLabels v) = .ok m.labels := by
    cases hl : m.labels with
    | nil =>
      rw [Manifest.getField_encode_labels_nil m hl]
    | cons p rest =>
      rw [Manifest.getField_encode_labels_cons m p rest hl]
      simp only []
      rw [decodeLabels_encodeLabels]
  rw [Manifest.decode.eq_def]
  rw [e1, e2, e3, e4, e5, e6, e7]

theorem reqField_ok_hasField {α : Type} (j : Json) (name : String)
    (dec : Json → Except String α) (v : α) (h : reqField j name dec = .ok v) :
    j.hasField name = true := by
  rw [reqField.eq_def] at h
  cases hg : j.getField name with
  | none => rw [hg] at h; exact absurd h (by simp)
  | some w => rw [Json.hasField, hg]; rfl

theorem Manifest.decode_ok_inv (j : Json) (m : Manifest)
    (h : Manifest.decode j = .ok m) :
    j.hasField "domain" = true ∧ j.hasField "scope" = true ∧
    j.hasField "kind" = true ∧ j.hasField "version" = true ∧
    j.hasField "origin" = true ∧ j.hasField "ctime" = true ∧
    (j.getField "labels" = none → m.labels = []) := by
  rw [Manifest.decode.eq_def] at h
  split at h
  · exact absurd h (by simp)
  · rename_i dv hd
    split at h
    · exact absurd h (by simp)
    · rename_i sv hs
      split at h
      · exact absurd h (by simp)
      · rename_i kv hk
        split at h
        · exact absurd h (by simp)
        · rename_i vv hv
          split at h
          · exact absurd h (by simp)
          · rename_i ov ho
            split at h
            · exact absurd h (by simp)
            · rename_i cv hc
              refine ⟨reqField_ok_hasField j _ _ _ hd, reqField_ok_hasField j _ _ _ hs,
                reqField_ok_hasField j _ _ _ hk, reqField_ok_hasField j _ _ _ hv,
                reqField_ok_hasField j _ _ _ ho, reqField_ok_hasField j _ _ _ hc, ?_⟩
              intro hnone
              rw [hnone] at h
              split at h
              · exact absurd h (by simp)
              · rename_i lv hl
                have hlv : lv = [] := by
                  have h2 : (Except.ok ([] : Labels) : Except String Labels) = .ok lv := hl
                  simpa using h2.symm
                simp only [Except.ok.injEq] at h
                rw [← h]
                exact hlv

theorem Header.decode_of_field (j : Json) (m : Manifest)
    (hm : reqField j "manifest" Manifest.decode = .ok m) :
    Header.decode j = .ok ⟨m⟩ := by
  rw [Header.decode.eq_def, hm]

theorem Packet.decode_of_fields {T : Type} (decT : Json → Except String T)
    (j : Json) (m : Manifest) (t : T)
    (hm : reqField j "manifest" Manifest.decode = .ok m)
    (hc : reqField j "content" decT = .ok t) :
    Packet.decode decT j = .ok ⟨m, t⟩ := by
  rw [Packet.decode.eq_def, hm, hc]

theorem Packet.decode_content_error {T : Type} (decT : Json → Except String T)
    (j : Json) (m : Manifest) (cj : Json) (e : String)
    (hm : reqField j "manifest" Manifest.decode = .ok m)
    (hc : j.getField "content" = some cj) (he : decT cj = .error e) :
    Packet.decode decT j = .error e := by
  have hc2 : reqField j "content" decT = .error e := by
    rw [reqField.eq_def, hc]
    exact he
  rw [Packet.decode.eq_def, hm, hc2]

/-- The test suite's sample payload type (`struct CpuMetrics`,
lib.rs:134-140): `begin`/`end` timestamps, a `u16` interval and a `Vec<u8>`
of idle percentages. -/
structure CpuMetrics where
  begin : DateTime
  «end» : DateTime
  interval_seconds : Nat
  idle_percent : List Nat
deriving DecidableEq, Repr

/-- Deserialize a `CpuMetrics` (serde derive on lib.rs:134-140). -/
def decodeCpuMetrics (j : Json) : Except String CpuMetrics :=
  match reqField j "begin" decodeDateTime with
  | .error e => .error e
  | .ok b =>
  match reqField j "end" decodeDateTime with
  | .error e => .error e
  | .ok en =>
  match reqField j "interval_seconds" (decodeUInt 16) with
  | .error e => .error e
  | .ok iv =>
  match reqField j "idle_percent" (decodeArr (decodeUInt 8)) with
  | .error e => .error e
  | .ok ip => .ok ⟨b, en, iv, ip⟩

/-- The manifest sub-structure of the concrete scenario's blob. -/
def c4ManifestJson : Json :=
  .obj [("domain", .str "example.org"), ("scope", .str "metrics"),
    ("kind", .str "cpu"), ("version", .num 1), ("origin", .str "host-03"),
    ("ctime", .str "2020-08-25T14:41:40Z"),
    ("labels", .obj [("foo", .str "bar")])]

/-- The concrete scenario's blob exactly as the claim writes it, with the
payload sub-structure under the key `payload`. -/
def c4Blob : Json :=
  .obj [("manifest", c4ManifestJson),
    ("payload", .obj [("interval_seconds", .num 10),
      ("idle_percent", .arr [.num 80, .num 81, .num 85, .num 90, .num 91, .num 92])])]

/-- The concrete scenario's blob amended to what the source actually accepts:
the payload keyed `content` (the `Packet` field's name) and carrying the
`begin`/`end` fields `CpuMetrics` requires. -/
def c4BlobAmended : Json :=
  .obj [("manifest", c4ManifestJson),
    ("content", .obj [("begin", .str "2020-08-25T14:40:00Z"),
      ("end", .str "2020-08-25T14:41:40Z"), ("interval_seconds", .num 10),
      ("idle_percent", .arr [.num 80, .num 81, .num 85, .num 90, .num 91, .num 92])])]

/-- The Manifest value the scenario's manifest sub-structure denotes. -/
def c4Manifest : Manifest :=
  ⟨"example.org", "metrics", "cpu", 1, "host-03", ⟨2020, 8, 25, 14, 41, 40, 0⟩, [("foo", "bar")]⟩

/-- The payload value the amended blob's content sub-structure denotes. -/
def c4Content : CpuMetrics :=
  ⟨⟨2020, 8, 25, 14, 40, 0, 0⟩, ⟨2020, 8, 25, 14, 41, 40, 0⟩, 10, [80, 81, 85, 90, 91, 92]⟩

/-- C1: Encode/decode round-trip: for every Manifest with non-empty labels and
every payload of a serializable type T (one whose codec round-trips), encoding
the envelope `Packet{manifest, content}` and decoding the result back into
`Packet<T>` succeeds and yields a value field-equal to the original, with the
timestamp compared as an instant (a `DateTime` value), not as text. -/
theorem packet_roundtrip {T : Type} (encT : T → Json) (decT : Json → Except String T)
    (hT : ∀ t, decT (encT t) = .ok t) (m : Manifest) (hv : m.valid? = true)
    (_hl : m.labels ≠ []) (p : T) :
    Packet.decode decT (Packet.encode encT ⟨m, p⟩) = .ok ⟨m, p⟩ := by
  have hgm : Json.getField (Packet.encode encT ⟨m, p⟩) "manifest" = some m.encode := rfl
  have hgc : Json.getField (Packet.encode encT ⟨m, p⟩) "content" = some (encT p) := rfl
  have hm : reqField (Packet.encode encT ⟨m, p⟩) "manifest" Manifest.decode = .ok m := by
    rw [reqField.eq_def, hgm]
    simp only []
    exact Manifest.decode_encode m hv
  have hc : reqField (Packet.encode encT ⟨m, p⟩) "content" decT = .ok p := by
    rw [reqField.eq_def, hgc]
    simp only []
    exact hT p
  exact Packet.decode_of_fields decT _ m p hm hc

theorem packet_roundtrip_witness :
    Packet.decode decodeBool (Packet.encode Json.bool ⟨c4Manifest, true⟩) =
      .ok ⟨c4Manifest, true⟩ :=
  packet_roundtrip Json.bool decodeBool (fun t => by cases t <;> rfl) c4Manifest
    (by decide) (by decide) true

/-- C2: Header+payload composition equivalence: for every envelope value `e`,
`Packet.from_obj (Header::from(e), e.content)` is field-equal to `e`. -/
theorem from_obj_header_roundtrip {T : Type} (e : Packet T) :
    Packet.from_obj (Header.fromPacket e) e.content = e := rfl

/-- C3: Projection through encoding: for every envelope value `e`, decoding
`e`'s encoded form into Header succeeds for any payload type and any payload
encoder (the payload is never inspected), and the resulting Header's manifest
is field-equal to `e.manifest`. -/
theorem header_decode_packet_encode {T : Type} (encT : T → Json) (e : Packet T)
    (hv : e.manifest.valid? = true) :
    Header.decode (Packet.encode encT e) = .ok ⟨e.manifest⟩ := by
  have hgm : Json.getField (Packet.encode encT e) "manifest" = some e.manifest.encode := rfl
  have hm : reqField (Packet.encode encT e) "manifest" Manifest.decode = .ok e.manifest := by
    rw [reqField.eq_def, hgm]
    simp only []
    exact Manifest.decode_encode e.manifest hv
  exact Header.decode_of_field _ e.manifest hm

theorem header_decode_packet_encode_witness :
    Header.decode (Packet.encode Json.bool ⟨c4Manifest, false⟩) = .ok ⟨c4Manifest⟩ :=
  header_decode_packet_encode Json.bool ⟨c4Manifest, false⟩ (by decide)

/-- C4 counterexample: the claim's blob keys its payload `"payload"`, but the
`Packet` struct's payload field is named `content`, so decoding the claim's
exact blob into `Packet<CpuMetrics>` fails instead of succeeding. -/
theorem c4_payload_key_counterexample :
    Packet.decode decodeCpuMetrics c4Blob = .error "missing field content" := rfl

/-- C4 (amended): decoding the blob into Header yields manifest.kind = "cpu",
manifest.version = 1 and labels foo ↦ bar (this also holds for the original
blob); with the payload keyed `"content"` and carrying the `begin`/`end`
timestamps `CpuMetrics` requires, decoding into `Packet<CpuMetrics>` succeeds
with `idle_percent[2] = 85`; decoding into `Packet<String>` fails. -/
theorem c4_scenario :
    Header.decode c4Blob = .ok ⟨c4Manifest⟩ ∧
    Header.decode c4BlobAmended = .ok ⟨c4Manifest⟩ ∧
    c4Manifest.kind = "cpu" ∧ c4Manifest.version = 1 ∧
    c4Manifest.labels = [("foo", "bar")] ∧
    Packet.decode decodeCpuMetrics c4BlobAmended = .ok ⟨c4Manifest, c4Content⟩ ∧
    c4Content.idle_percent[2]? = some 85 ∧
    Packet.decode decodeString c4BlobAmended = .error "expected string" :=
  ⟨rfl, rfl, rfl, rfl, rfl, rfl, rfl, rfl⟩

/-- C5: Open-world decoding: a blob whose first field is a decodable manifest
followed by arbitrary extra fields (which may include a whole payload field)
decodes into Header, and a blob with manifest, content, and arbitrary extra
top-level fields decodes into `Packet<T>` for a payload the codec accepts. -/
theorem open_world_decode {T : Type} (encT : T → Json) (decT : Json → Except String T)
    (m : Manifest) (hv : m.valid? = true) (t : T) (ht : decT (encT t) = .ok t)
    (extras : List (String × Json)) :
    Header.decode (.obj (("manifest", m.encode) :: extras)) = .ok ⟨m⟩ ∧
    Packet.decode decT (.obj (("manifest", m.encode) :: ("content", encT t) :: extras)) =
      .ok ⟨m, t⟩ := by
  have hg1 : Json.getField (.obj (("manifest", m.encode) :: extras)) "manifest" =
      some m.encode := rfl
  have hg2 : Json.getField (.obj (("manifest", m.encode) :: ("content", encT t) :: extras))
      "manifest" = some m.encode := rfl
  have hg3 : Json.getField (.obj (("manifest", m.encode) :: ("content", encT t) :: extras))
      "content" = some (encT t) := rfl
  constructor
  · have hm : reqField (.obj (("manifest", m.encode) :: extras)) "manifest"
        Manifest.decode = .ok m := by
      rw [reqField.eq_def, hg1]
      simp only []
      exact Manifest.decode_encode m hv
    exact Header.decode_of_field _ m hm
  · have hm : reqField (.obj (("manifest", m.encode) :: ("content", encT t) :: extras))
        "manifest" Manifest.decode = .ok m := by
      rw [reqField.eq_def, hg2]
      simp only []
      exact Manifest.decode_encode m hv
    have hc : reqField (.obj (("manifest", m.encode) :: ("content", encT t) :: extras))
        "content" decT = .ok t := by
      rw [reqField.eq_def, hg3]
      simp only []
      exact ht
    exact Packet.decode_of_fields decT _ m t hm hc

theorem open_world_decode_witness :
    Header.decode (.obj (("manifest", c4Manifest.encode) ::
        [("payload", Json.null), ("zzz", Json.num 7)])) = .ok ⟨c4Manifest⟩ ∧
    Packet.decode decodeBool (.obj (("manifest", c4Manifest.encode) ::
        ("content", Json.bool true) :: [("payload", Json.null), ("zzz", Json.num 7)])) =
      .ok ⟨c4Manifest, true⟩ :=
  open_world_decode Json.bool decodeBool c4Manifest (by decide) true rfl
    [("payload", Json.null), ("zzz", Json.num 7)]

/-- C6: Labels decode default: decoding any blob without a labels field never
yields a non-empty labels mapping, and a manifest blob carrying all required
fields but no labels field decodes successfully to a Manifest with empty
labels. -/
theorem labels_absent_defaults_empty :
    (∀ (j : Json) (m : Manifest), j.hasField "labels" = false →
      Manifest.decode j = .ok m → m.labels = []) ∧
    (∀ (dv sv kv : String) (vv : Nat) (ov ts : String) (dt : DateTime),
      vv < 2 ^ 64 → dtParseL ts.data = some dt →
      Manifest.decode (.obj [("domain", .str dv), ("scope", .str sv),
        ("kind", .str kv), ("version", .num (vv : Int)), ("origin", .str ov),
        ("ctime", .str ts)]) = .ok ⟨dv, sv, kv, vv, ov, dt, []⟩) := by
  constructor
  · intro j m hnone hdec
    have hinv := (Manifest.decode_ok_inv j m hdec).2.2.2.2.2.2
    cases hg : j.getField "labels" with
    | none => exact hinv hg
    | some w => rw [Json.hasField, hg] at hnone; exact absurd hnone (by simp)
  · intro dv sv kv vv ov ts dt hvv hts
    have e1 : reqField (Json.obj [("domain", .str dv), ("scope", .str sv),
        ("kind", .str kv), ("version", .num (vv : Int)), ("origin", .str ov),
        ("ctime", .str ts)]) "domain" decodeString = .ok dv := rfl
    have e2 : reqField (Json.obj [("domain", .str dv), ("scope", .str sv),
        ("kind", .str kv), ("version", .num (vv : Int)), ("origin", .str ov),
        ("ctime", .str ts)]) "scope" decodeString = .ok sv := rfl
    have e3 : reqField (Json.obj [("domain", .str dv), ("scope", .str sv),
        ("kind", .str kv), ("version", .num (vv : Int)), ("origin", .str ov),
        ("ctime", .str ts)]) "kind" decodeString = .ok kv := rfl
    have e4 : reqField (Json.obj [("domain", .str dv), ("scope", .str sv),
        ("kind", .str kv), ("version", .num (vv : Int)), ("origin", .str ov),
        ("ctime", .str ts)]) "version" (decodeUInt 64) = .ok vv := by
      show decodeUInt 64 (.num (vv : Int)) = .ok vv
      exact decodeUInt_encode 64 vv hvv
    have e5 : reqField (Json.obj [("domain", .str dv), ("scope", .str sv),
        ("kind", .str kv), ("version", .num (vv : Int)), ("origin", .str ov),
        ("ctime", .str ts)]) "origin" decodeString = .ok ov := rfl
    have e6 : reqField (Json.obj [("domain", .str dv), ("scope", .str sv),
        ("kind", .str kv), ("version", .num (vv : Int)), ("origin", .str ov),
        ("ctime", .str ts)]) "ctime" decodeDateTime = .ok dt := by
      show (match dtParseL ts.data with
            | some d => Except.ok d
            | none => Except.error "invalid timestamp") = Except.ok dt
      rw [hts]
    have e7 : (match (Json.obj [("domain", .str dv), ("scope", .str sv),
        ("kind", .str kv), ("version", .num (vv : Int)), ("origin", .str ov),
        ("ctime", .str ts)]).getField "labels" with
        | none => (.ok [] : Except String Labels)
        | some v => decodeLabels v) = .ok [] := rfl
    rw [Manifest.decode.eq_def, e1, e2, e3, e4, e5, e6, e7]

theorem labels_absent_defaults_empty_witness :
    Manifest.decode (.obj [("domain", .str "example.org"), ("scope", .str "metrics"),
      ("kind", .str "cpu"), ("version", .num (1 : Nat)), ("origin", .str "host-03"),
      ("ctime", .str "2020-08-25T14:41:40Z")]) =
      .ok ⟨"example.org", "metrics", "cpu", 1, "host-03", ⟨2020, 8, 25, 14, 41, 40, 0⟩, []⟩ :=
  labels_absent_defaults_empty.2 "example.org" "metrics" "cpu" 1 "host-03"
    "2020-08-25T14:41:40Z" ⟨2020, 8, 25, 14, 41, 40, 0⟩ (by norm_num) (by decide)

/-- C7: Empty-labels encode omission: the encoded form of a Manifest carries a
labels field exactly when the labels mapping is non-empty; with zero entries
there is no labels key at all (in particular no null or empty-object
placeholder). -/
theorem labels_omitted_iff_empty (m : Manifest) :
    m.encode.hasField "labels" = !List.isEmpty m.labels := by
  cases hl : m.labels with
  | nil =>
    rw [Json.hasField, Manifest.getField_encode_labels_nil m hl]
    rfl
  | cons p rest =>
    rw [Json.hasField, Manifest.getField_encode_labels_cons m p rest hl]
    rfl

/-- C8: Missing-required-field rejection: decoding any blob lacking one of the
required manifest fields (domain, scope, kind, version, origin, ctime) fails
with a decode error; no Manifest value is returned. -/
theorem missing_required_field_fails (j : Json) (f : String)
    (hf : f = "domain" ∨ f = "scope" ∨ f = "kind" ∨ f = "version" ∨
      f = "origin" ∨ f = "ctime")
    (hmiss : j.hasField f = false) :
    ∃ e, Manifest.decode j = .error e := by
  cases hres : Manifest.decode j with
  | error e => exact ⟨e, rfl⟩
  | ok m =>
    exfalso
    have hinv := Manifest.decode_ok_inv j m hres
    rcases hf with rfl | rfl | rfl | rfl | rfl | rfl <;> simp_all

theorem missing_required_field_fails_witness :
    ∃ e, Manifest.decode (.obj [("scope", .str "metrics")]) = .error e :=
  missing_required_field_fails (.obj [("scope", .str "metrics")]) "domain"
    (Or.inl rfl) (by decide)

/-- C9: Payload-shape-mismatch atomicity: when the blob's manifest decodes
successfully but the payload sub-structure is rejected by T's decoder, the
whole `Packet<T>` decode fails with that error; no partial, manifest-only
value is returned. -/
theorem payload_mismatch_fails {T : Type} (decT : Json → Except String T)
    (j : Json) (m : Manifest) (cj : Json) (e : String)
    (hm : reqField j "manifest" Manifest.decode = .ok m)
    (hc : j.getField "content" = some cj)
    (he : decT cj = .error e) :
    Packet.decode decT j = .error e :=
  Packet.decode_content_error decT j m cj e hm hc he

theorem payload_mismatch_fails_witness :
    Packet.decode decodeBool
      (.obj [("manifest", c4Manifest.encode), ("content", .str "oops")]) =
      .error "expected bool" :=
  payload_mismatch_fails decodeBool
    (.obj [("manifest", c4Manifest.encode), ("content", .str "oops")])
    c4Manifest (.str "oops") "expected bool" rfl rfl rfl

/-- C10: Projection commutation: for every envelope value `p`, the direct
unwrap `Manifest::from(p)` equals the manifest read through a Header
projection, and both equal `p.manifest`. -/
theorem manifest_projection_commutes {T : Type} (p : Packet T) :
    Manifest.fromPacket p = (Header.fromPacket p).manifest ∧
    Manifest.fromPacket p = p.manifest :=
  ⟨rfl, rfl⟩
